import Mathlib

/-!
Verification of the holder aggregation and distribution metrics engine of the
wallet tracker scripts (`scripts/pull-holders.js`, Dune variant, and its
Moralis twin).  Balances flowing in from the external API are JavaScript
numbers; we embed them as `JsNum`, exact rationals extended with `NaN` and the
two infinities, so that the `Number.isNaN` drop check and the mega-holder
comparison behave exactly as in the source.  Holder records that survive
classification provably carry finite balances, so the metrics engine
(`computeMetrics` and friends) is stated over plain rationals, with the real
square root used only by `calculateStdDeviation`.
-/

/-- JavaScript numbers as relevant to the scripts: NaN, the infinities, and
finite values modeled exactly as rationals. -/
inductive JsNum where
  | nan : JsNum
  | posInf : JsNum
  | negInf : JsNum
  | finite : ℚ → JsNum
deriving DecidableEq, Repr

/-- `Number.isNaN`. -/
def JsNum.isNaN : JsNum → Bool
  | .nan => true
  | _ => false

/-- JavaScript `>` against a finite (rational) right operand; NaN compares
false, `Infinity` is greater than every finite value. -/
def JsNum.gtQ : JsNum → ℚ → Bool
  | .nan, _ => false
  | .posInf, _ => true
  | .negInf, _ => false
  | .finite a, q => decide (q < a)

/-- JavaScript `>=` against a finite (rational) right operand. -/
def JsNum.geQ : JsNum → ℚ → Bool
  | .nan, _ => false
  | .posInf, _ => true
  | .negInf, _ => false
  | .finite a, q => decide (q ≤ a)

/-- JavaScript `+` on numbers: NaN propagates, opposite infinities give NaN,
an infinity absorbs finite values. -/
def JsNum.add : JsNum → JsNum → JsNum
  | .nan, _ => .nan
  | _, .nan => .nan
  | .posInf, .negInf => .nan
  | .negInf, .posInf => .nan
  | .posInf, _ => .posInf
  | _, .posInf => .posInf
  | .negInf, _ => .negInf
  | _, .negInf => .negInf
  | .finite a, .finite b => .finite (a + b)

/-- The finite value carried by a `JsNum`; junk value `0` on the non-finite
constructors.  Used only where the pipeline provably supplies finite numbers
(the retail branch of the classifier, see `classifyRow_retail_bounds`). -/
def JsNum.toQ : JsNum → ℚ
  | .finite q => q
  | _ => 0

/-- One raw row from the external query service.  The two balance fields model
`row.telcoin_balance` and `row.amount` (respectively `balance_formatted` and
`balance` in the Moralis variant) after JavaScript numeric conversion; `none`
is an absent/null field. -/
structure Row where
  address : Option String
  telcoin_balance : Option JsNum
  amount : Option JsNum
deriving DecidableEq, Repr

/-- The JavaScript `String.prototype.startsWith` primitive, modeled on the
underlying character list. -/
def strStartsWith (s p : String) : Bool :=
  p.data.isPrefixOf s.data

/-- The JavaScript `String.prototype.toLowerCase` primitive, modeled
character by character. -/
def strToLower (s : String) : String :=
  ⟨s.data.map Char.toLower⟩

/-- The JavaScript `String.prototype.slice(n)` primitive, modeled on the
underlying character list. -/
def strDrop (s : String) (n : ℕ) : String :=
  ⟨s.data.drop n⟩

/-- `normalizeAddress` from `scripts/pull-holders.js`: null/empty input is
null, `0x`/`0X` prefixed strings are lower-cased as-is, an escaped-hex
`\x`/`\X` marker is stripped and replaced by `0x`, and any other string is
lower-cased and `0x`-prefixed. -/
def normalizeAddress (value : Option String) : Option String :=
  match value with
  | none => none
  | some raw =>
    if raw = "" then none
    else if strStartsWith raw "0x" || strStartsWith raw "0X" then some (strToLower raw)
    else if strStartsWith raw "\\x" || strStartsWith raw "\\X" then
      some ("0x" ++ strToLower (strDrop raw 2))
    else some ("0x" ++ strToLower raw)

/-- `Number(row.telcoin_balance ?? row.amount ?? 0)`: first present field
wins, a fully absent balance coerces to `0`. -/
def rowBalance (row : Row) : JsNum :=
  match row.telcoin_balance with
  | some v => v
  | none =>
    match row.amount with
    | some v => v
    | none => JsNum.finite 0

/-- Run configuration: the chain label, the denylist (`exclusionSet`, already
lower-cased) and the two thresholds (`RETAIL_THRESHOLD` is `0` in the Dune
variant and `1_000` in the Moralis variant; `MEGA_HOLDER_THRESHOLD` is
`20_000_000_000` in both). -/
structure Config where
  label : String
  exclusionSet : List String
  retailThreshold : ℚ
  megaHolderThreshold : ℚ
deriving DecidableEq, Repr

/-- A retail holder record.  The balance is rational: the classifier only ever
pushes finite balances (proved in `classifyRow_retail_bounds`). -/
structure Holder where
  address : String
  balance : ℚ
  chain : String
deriving DecidableEq, Repr

/-- `holders.reduce((sum, h) => sum + h.balance, 0)`. -/
def sumBalances (holders : List Holder) : ℚ :=
  holders.foldl (fun s h => s + h.balance) 0

/-- `Set.add` on a JavaScript `Set` materialized as an insertion-ordered
duplicate-free list. -/
def insertSet (s : List String) (a : String) : List String :=
  if a ∈ s then s else s ++ [a]

/-- Mutable per-chain accumulator state of the row loop in `processChain`. -/
structure ChainState where
  holders : List Holder
  excludedAddresses : List String
  excludedBalance : JsNum
  totalProcessed : JsNum
deriving DecidableEq, Repr

/-- The four-way classification implicit in the row loop's cascade of
conditionals (spec section 9 suggests making it explicit). -/
inductive RowClass where
  | dropped : RowClass
  | excluded : RowClass
  | retail : RowClass
  | subThreshold : RowClass
deriving DecidableEq, Repr

/-- Classification of one raw row, mirroring the order of checks in the row
loop: null-address/NaN drop first, then denylist/mega-holder exclusion, then
the retail threshold. -/
def classifyRow (cfg : Config) (row : Row) : RowClass :=
  match normalizeAddress row.address with
  | none => .dropped
  | some addr =>
    let balance := rowBalance row
    if balance.isNaN then .dropped
    else if cfg.exclusionSet.contains addr || balance.gtQ cfg.megaHolderThreshold then
      .excluded
    else if balance.geQ cfg.retailThreshold then .retail
    else .subThreshold

/-- Body of `rows.forEach((row) => ...)` in `processChain`: normalize the
address, coerce the balance, drop on null address or NaN, accumulate
`totalProcessed`, then exclude or push a retail holder. -/
def processRow (cfg : Config) (st : ChainState) (row : Row) : ChainState :=
  match normalizeAddress row.address with
  | none => st
  | some addr =>
    let balance := rowBalance row
    if balance.isNaN then st
    else
      let st1 := { st with totalProcessed := st.totalProcessed.add balance }
      if cfg.exclusionSet.contains addr || balance.gtQ cfg.megaHolderThreshold then
        { st1 with
          excludedAddresses := insertSet st1.excludedAddresses addr
          excludedBalance := st1.excludedBalance.add balance }
      else if balance.geQ cfg.retailThreshold then
        { st1 with holders := st1.holders ++ [⟨addr, balance.toQ, cfg.label⟩] }
      else st1

/-- The holder record a retail-classified row turns into. -/
def mkRetailHolder (cfg : Config) (row : Row) : Holder :=
  ⟨(normalizeAddress row.address).getD "", (rowBalance row).toQ, cfg.label⟩

/-- Normalized address of a row, defaulting to the empty string. -/
def rowNormAddr (row : Row) : String :=
  (normalizeAddress row.address).getD ""

/-- Helper for rendering a two-digit fraction part. -/
def natPad2 (n : ℕ) : String :=
  if n < 10 then "0" ++ toString n else toString n

/-- `toFixed(2)` on a non-negative rational: round to the nearest hundredth
(ties away from zero, i.e. upward on the magnitude) and render. -/
def toFixed2Mag (q : ℚ) : String :=
  let n := (⌊q * 100 + 1 / 2⌋).toNat
  toString (n / 100) ++ "." ++ natPad2 (n % 100)

/-- JavaScript `Number.prototype.toFixed(2)` over our exact rationals: the
sign is split off first, as in the ECMAScript algorithm. -/
def toFixed2 (q : ℚ) : String :=
  if q < 0 then "-" ++ toFixed2Mag (-q) else toFixed2Mag q

/-- One `top${n}` report entry of `computeMetrics`. -/
structure TopEntry where
  count : ℕ
  balance : ℚ
  percentage : String
deriving DecidableEq, Repr

/-- The loop `cumulative += (n - i) * sorted[i]` of
`calculateGiniCoefficient`, computed structurally: the head of a list of
length `m + 1` has weight `m + 1`, and the tail continues with its own
length. -/
def giniCumul : List ℚ → ℚ
  | [] => 0
  | a :: t => ((t.length : ℚ) + 1) * a + giniCumul t

/-- `calculateGiniCoefficient`: sort ascending, return `0` for an empty list
or a zero total, otherwise `(n + 1 - 2 * cumulative / totalSum) / n`. -/
def calculateGiniCoefficient (values : List ℚ) : ℚ :=
  if values = [] then 0
  else
    let sorted := values.insertionSort (· ≤ ·)
    let n : ℚ := sorted.length
    let totalSum := sorted.sum
    if totalSum = 0 then 0
    else (n + 1 - 2 * giniCumul sorted / totalSum) / n

/-- The mean used by `calculateStdDeviation`. -/
def meanQ (values : List ℚ) : ℚ :=
  values.sum / values.length

/-- The population variance of `calculateStdDeviation`: squared-deviation sum
divided by `n` (not `n - 1`). -/
def varianceQ (values : List ℚ) : ℚ :=
  (values.map fun v => (v - meanQ values) ^ 2).sum / values.length

/-- `calculateStdDeviation`: `0` for an empty list, otherwise
`Math.sqrt(variance)`. -/
noncomputable def calculateStdDeviation (values : List ℚ) : ℝ :=
  if values = [] then 0 else Real.sqrt (varianceQ values)

/-- One histogram bracket; `max = none` models the unbounded `Infinity` upper
end of the last bracket (every finite balance satisfies `balance < Infinity`). -/
structure DistBracket where
  min : ℚ
  max : Option ℚ
  label : String
deriving DecidableEq, Repr

/-- The fixed bracket table of `calculateDistribution`. -/
def brackets : List DistBracket :=
  [⟨1000, some 10000, "1K-10K"⟩,
   ⟨10000, some 100000, "10K-100K"⟩,
   ⟨100000, some 1000000, "100K-1M"⟩,
   ⟨1000000, some 10000000, "1M-10M"⟩,
   ⟨10000000, some 100000000, "10M-100M"⟩,
   ⟨100000000, none, "100M+"⟩]

/-- `holder.balance >= bracket.min && holder.balance < bracket.max`. -/
def inBracket (b : DistBracket) (h : Holder) : Bool :=
  decide (b.min ≤ h.balance) &&
    match b.max with
    | some m => decide (h.balance < m)
    | none => true

/-- One row of the distribution histogram. -/
structure DistEntry where
  label : String
  count : ℕ
  totalBalance : ℚ
deriving DecidableEq, Repr

/-- `calculateDistribution`: per bracket, the holders strictly within
`[min, max)`, their count and their summed balance. -/
def calculateDistribution (holders : List Holder) : List DistEntry :=
  brackets.map fun b =>
    let inB := holders.filter (inBracket b)
    ⟨b.label, inB.length, sumBalances inB⟩

/-- Sum of the per-bucket `totalBalance` values of the histogram. -/
def distributionTotal (holders : List Holder) : ℚ :=
  ((calculateDistribution holders).map (·.totalBalance)).sum

/-- One `top${n}` entry: `slice(0, n)`, summed balance, count
`Math.min(n, holders.length)`, and the percentage string (`"0.00"` unless the
supply is positive). -/
def topEntry (holders : List Holder) (supply : ℚ) (n : ℕ) : TopEntry :=
  let top := holders.take n
  let topBalance := sumBalances top
  { count := min n holders.length
    balance := topBalance
    percentage := if 0 < supply then toFixed2 (topBalance / supply * 100) else "0.00" }

/-- The full `metrics` object. -/
structure MetricsReport where
  top10 : TopEntry
  top25 : TopEntry
  top50 : TopEntry
  top100 : TopEntry
  gini : ℚ
  stdDev : ℝ
  distribution : List DistEntry

/-- `computeMetrics(holders, totalRetailSupply)`.  The source's
`totalRetailSupply || 0` is the identity on exact rationals (only `0` and
`NaN` are falsy numbers), so `supply` is the argument itself. -/
noncomputable def computeMetrics (holders : List Holder) (totalRetailSupply : ℚ) :
    MetricsReport :=
  let supply := totalRetailSupply
  let balances := holders.map (·.balance)
  { top10 := topEntry holders supply 10
    top25 := topEntry holders supply 25
    top50 := topEntry holders supply 50
    top100 := topEntry holders supply 100
    gini := calculateGiniCoefficient balances
    stdDev := calculateStdDeviation balances
    distribution := calculateDistribution holders }

/-- The per-chain (or combined) aggregate object. -/
structure ChainAggregate where
  key : String
  label : String
  holders : List Holder
  totalRetailSupply : ℚ
  retailHolderCount : ℕ
  excludedAddresses : List String
  excludedBalances : List (String × JsNum)
  totalProcessedByChain : List (String × JsNum)
  metrics : MetricsReport

/-- `processChain(chainKey, rows)`: run the row loop, sort holders descending
by balance, recompute the retail supply over the sorted list, and assemble the
aggregate. -/
noncomputable def processChain (cfg : Config) (chainKey : String) (rows : List Row) :
    ChainAggregate :=
  let st := rows.foldl (processRow cfg) ⟨[], [], .finite 0, .finite 0⟩
  let sortedHolders := st.holders.insertionSort (fun a b => b.balance ≤ a.balance)
  let totalRetailSupply := sumBalances sortedHolders
  { key := chainKey
    label := cfg.label
    holders := sortedHolders
    totalRetailSupply := totalRetailSupply
    retailHolderCount := sortedHolders.length
    excludedAddresses := st.excludedAddresses
    excludedBalances := [(chainKey, st.excludedBalance)]
    totalProcessedByChain := [(chainKey, st.totalProcessed)]
    metrics := computeMetrics sortedHolders totalRetailSupply }

/-- `m[k] = (m[k] || 0) + v` on a JavaScript object materialized as an
insertion-ordered association list; a falsy stored value (only `0` or `NaN`
can occur) is replaced by `0` before adding. -/
def upsertAdd (m : List (String × JsNum)) (k : String) (v : JsNum) :
    List (String × JsNum) :=
  match m.lookup k with
  | some _ =>
      m.map fun e =>
        if e.1 = k then
          (e.1, (if e.2 = .nan ∨ e.2 = .finite 0 then JsNum.finite 0 else e.2).add v)
        else e
  | none => m ++ [(k, (JsNum.finite 0).add v)]

/-- `buildCombinedDataset(chainResults)`: concatenate every chain's holders
(re-labelled with the chain's label), re-sort descending, sum the retail
supplies, union the excluded addresses, and additively merge the per-chain
keyed maps.  The source does all of this in one pass over the entries; the
per-field folds below accumulate in the same entry order. -/
noncomputable def buildCombinedDataset (chainResults : List (String × ChainAggregate)) :
    ChainAggregate :=
  let combinedHolders :=
    chainResults.flatMap fun e => e.2.holders.map fun h => { h with chain := e.2.label }
  let totalRetailSupply := chainResults.foldl (fun acc e => acc + e.2.totalRetailSupply) 0
  let excludedBalances :=
    chainResults.foldl (fun acc e => e.2.excludedBalances.foldl
      (fun m kv => upsertAdd m kv.1 kv.2) acc) []
  let totalProcessedByChain :=
    chainResults.foldl (fun acc e => e.2.totalProcessedByChain.foldl
      (fun m kv => upsertAdd m kv.1 kv.2) acc) []
  let excludedAddresses :=
    chainResults.foldl (fun acc e => e.2.excludedAddresses.foldl insertSet acc) []
  let sortedHolders := combinedHolders.insertionSort (fun a b => b.balance ≤ a.balance)
  { key := "combined"
    label := "Combined"
    holders := sortedHolders
    totalRetailSupply := totalRetailSupply
    retailHolderCount := sortedHolders.length
    excludedAddresses := excludedAddresses
    excludedBalances := excludedBalances
    totalProcessedByChain := totalProcessedByChain
    metrics := computeMetrics sortedHolders totalRetailSupply }

/-- The claim that every input row is covered by the three classes
holder/excluded/dropped alone (the formalization refuted by
`aggregator_accounting_counterexample`). -/
def threeClassCoverage (cfg : Config) (chainKey : String) (rows : List Row) : Prop :=
  ∀ r ∈ rows,
    (normalizeAddress r.address = none ∨ (rowBalance r).isNaN = true) ∨
      (∃ h ∈ (processChain cfg chainKey rows).holders, h.address = rowNormAddr r) ∨
      rowNormAddr r ∈ (processChain cfg chainKey rows).excludedAddresses

theorem processRow_eq_class (cfg : Config) (st : ChainState) (row : Row) :
    processRow cfg st row =
      match classifyRow cfg row with
      | .dropped => st
      | .excluded =>
          { st with
            totalProcessed := st.totalProcessed.add (rowBalance row)
            excludedAddresses := insertSet st.excludedAddresses (rowNormAddr row)
            excludedBalance := st.excludedBalance.add (rowBalance row) }
      | .retail =>
          { st with
            totalProcessed := st.totalProcessed.add (rowBalance row)
            holders := st.holders ++ [mkRetailHolder cfg row] }
      | .subThreshold =>
          { st with totalProcessed := st.totalProcessed.add (rowBalance row) } := by
  rcases hn : normalizeAddress row.address with _ | a
  · simp [processRow, classifyRow, hn]
  · by_cases h1 : (rowBalance row).isNaN = true
    · simp [processRow, classifyRow, hn, h1]
    · by_cases h2 :
        a ∈ cfg.exclusionSet ∨ (rowBalance row).gtQ cfg.megaHolderThreshold = true
      · simp [processRow, classifyRow, rowNormAddr, hn, h1, h2]
      · by_cases h3 : (rowBalance row).geQ cfg.retailThreshold = true
        · simp [processRow, classifyRow, mkRetailHolder, rowNormAddr, hn, h1, h2, h3]
        · simp [processRow, classifyRow, hn, h1, h2, h3]

theorem foldl_processRow_holders (cfg : Config) (rows : List Row) (st : ChainState) :
    (rows.foldl (processRow cfg) st).holders =
      st.holders ++
        ((rows.filter fun r => classifyRow cfg r == RowClass.retail).map
          (mkRetailHolder cfg)) := by
  induction rows generalizing st with
  | nil => simp
  | cons r rows ih =>
    rw [List.foldl_cons, ih]
    rcases hc : classifyRow cfg r <;>
      simp [processRow_eq_class, hc, List.filter_cons]

theorem foldl_processRow_excluded (cfg : Config) (rows : List Row) (st : ChainState) :
    (rows.foldl (processRow cfg) st).excludedAddresses =
      ((rows.filter fun r => classifyRow cfg r == RowClass.excluded).map
          rowNormAddr).foldl insertSet st.excludedAddresses := by
  induction rows generalizing st with
  | nil => simp
  | cons r rows ih =>
    rw [List.foldl_cons, ih]
    rcases hc : classifyRow cfg r <;>
      simp [processRow_eq_class, hc, List.filter_cons]

theorem length_eq_class_counts (cfg : Config) (rows : List Row) :
    rows.length =
      (rows.countP fun r => classifyRow cfg r == RowClass.dropped) +
        (rows.countP fun r => classifyRow cfg r == RowClass.excluded) +
        (rows.countP fun r => classifyRow cfg r == RowClass.retail) +
        (rows.countP fun r => classifyRow cfg r == RowClass.subThreshold) := by
  induction rows with
  | nil => simp
  | cons r rows ih =>
    rcases hc : classifyRow cfg r <;> simp [List.countP_cons, hc, ih] <;> omega

theorem classifyRow_retail_bounds (cfg : Config) (row : Row)
    (h : classifyRow cfg row = RowClass.retail) :
    ∃ q : ℚ, rowBalance row = JsNum.finite q ∧
      cfg.retailThreshold ≤ q ∧ q ≤ cfg.megaHolderThreshold := by
  rcases hn : normalizeAddress row.address with _ | a
  · simp [classifyRow, hn] at h
  · rcases hb : rowBalance row with _ | _ | _ | q
    · simp [classifyRow, hn, hb, JsNum.isNaN] at h
    · simp [classifyRow, hn, hb, JsNum.isNaN, JsNum.gtQ] at h
    · simp [classifyRow, hn, hb, JsNum.isNaN, JsNum.gtQ, JsNum.geQ] at h
      split_ifs at h
    · simp [classifyRow, hn, hb, JsNum.isNaN, JsNum.gtQ, JsNum.geQ] at h
      split_ifs at h with hc1 hc2
      push_neg at hc1
      exact ⟨q, rfl, hc2, hc1.2⟩

/-- C2: the denylist/mega-holder exclusion check strictly precedes the retail
threshold check.  Every row with a non-null normalized address and a non-NaN
balance that is denylisted or above the mega-holder threshold is classified
excluded for every retail threshold, lands in `excludedAddresses` and not in
`holders`; in particular a denylisted address with balance 5000 and retail
threshold 1000 (see the witness) is excluded, not retail and not dropped. -/
theorem exclusion_precedes_retail (cfg : Config) (chainKey : String) (row : Row)
    (a : String)
    (hn : normalizeAddress row.address = some a)
    (hb : (rowBalance row).isNaN = false)
    (hex : (cfg.exclusionSet.contains a ||
        (rowBalance row).gtQ cfg.megaHolderThreshold) = true) :
    classifyRow cfg row = RowClass.excluded ∧
      (processChain cfg chainKey [row]).holders = [] ∧
      (processChain cfg chainKey [row]).excludedAddresses = [a] := by
  have hex2 : a ∈ cfg.exclusionSet ∨ (rowBalance row).gtQ cfg.megaHolderThreshold = true := by
    simpa using hex
  have hc : classifyRow cfg row = RowClass.excluded := by
    simp only [classifyRow, hn]
    simp [hb, hex2]
  refine ⟨hc, ?_, ?_⟩
  · have h1 : (processChain cfg chainKey [row]).holders =
        (([row].foldl (processRow cfg)
            ⟨[], [], .finite 0, .finite 0⟩).holders).insertionSort
          (fun a b => b.balance ≤ a.balance) := rfl
    rw [h1, foldl_processRow_holders]
    simp [List.filter_cons, hc]
  · have h1 : (processChain cfg chainKey [row]).excludedAddresses =
        ([row].foldl (processRow cfg) ⟨[], [], .finite 0, .finite 0⟩).excludedAddresses :=
      rfl
    rw [h1, foldl_processRow_excluded]
    simp [List.filter_cons, hc, rowNormAddr, hn, insertSet]

theorem exclusion_precedes_retail_witness :
    classifyRow ⟨"Polygon", ["0xdead"], 1000, 20000000000⟩
        ⟨some "0xdead", some (JsNum.finite 5000), none⟩ = RowClass.excluded ∧
      (processChain ⟨"Polygon", ["0xdead"], 1000, 20000000000⟩ "polygon"
          [⟨some "0xdead", some (JsNum.finite 5000), none⟩]).holders = [] ∧
      (processChain ⟨"Polygon", ["0xdead"], 1000, 20000000000⟩ "polygon"
          [⟨some "0xdead", some (JsNum.finite 5000), none⟩]).excludedAddresses =
        ["0xdead"] :=
  exclusion_precedes_retail _ _ _ _ (by decide) (by decide) (by decide)

/-- C3 (amended): a row is dropped if and only if its address normalizes to
null/empty or its balance is NaN; a dropped row leaves the accumulator state
untouched.  The original claim also counted the infinities as dropped, which
the code does not do (see `dropped_iff_counterexample`): the check is
`Number.isNaN`, not a finiteness test. -/
theorem dropped_iff_null_or_nan (cfg : Config) (row : Row) :
    (classifyRow cfg row = RowClass.dropped ↔
      normalizeAddress row.address = none ∨ (rowBalance row).isNaN = true) ∧
    ∀ st : ChainState, classifyRow cfg row = RowClass.dropped →
      processRow cfg st row = st := by
  constructor
  · rcases hn : normalizeAddress row.address with _ | a
    · simp [classifyRow, hn]
    · rcases hb : rowBalance row with _ | _ | _ | q <;>
        simp [classifyRow, hn, hb, JsNum.isNaN, JsNum.gtQ, JsNum.geQ] <;>
        split_ifs <;> simp
  · intro st h
    rw [processRow_eq_class, h]

/-- C3 counterexample: a row with balance `+Infinity` is not NaN and not
dropped; the code classifies it excluded (it exceeds the mega-holder
threshold) and records its address, contradicting the claim that every
non-finite balance is dropped. -/
theorem dropped_iff_counterexample :
    rowBalance ⟨some "0xbb", some JsNum.posInf, none⟩ = JsNum.posInf ∧
      (rowBalance ⟨some "0xbb", some JsNum.posInf, none⟩).isNaN = false ∧
      classifyRow ⟨"Chain", [], 1000, 20000000000⟩
          ⟨some "0xbb", some JsNum.posInf, none⟩ ≠ RowClass.dropped ∧
      classifyRow ⟨"Chain", [], 1000, 20000000000⟩
          ⟨some "0xbb", some JsNum.posInf, none⟩ = RowClass.excluded ∧
      (processChain ⟨"Chain", [], 1000, 20000000000⟩ "eth"
          [⟨some "0xbb", some JsNum.posInf, none⟩]).excludedAddresses = ["0xbb"] := by
  decide

theorem dropped_iff_null_or_nan_witness :
    processRow ⟨"Chain", [], 1000, 20000000000⟩ ⟨[], [], .finite 0, .finite 0⟩
        ⟨none, some (JsNum.finite 7), none⟩ = ⟨[], [], .finite 0, .finite 0⟩ ∧
      (classifyRow ⟨"Chain", [], 1000, 20000000000⟩ ⟨none, some (JsNum.finite 7), none⟩ =
          RowClass.dropped ↔
        normalizeAddress (none : Option String) = none ∨
          (rowBalance ⟨none, some (JsNum.finite 7), none⟩).isNaN = true) :=
  ⟨(dropped_iff_null_or_nan _ _).2 _ (by decide), (dropped_iff_null_or_nan _ _).1⟩

/-- C4 (amended): every input row is accounted for exactly once across FOUR
classes, not three: the aggregate's holder list is a permutation of the
holder records of the retail-classified rows (one entry per retail row, no
double counting), the excluded set is exactly the deduplicated normalized
addresses of the excluded-classified rows, and the remaining rows are either
dropped (null/empty address or NaN balance) or sub-threshold (not excluded,
balance below the retail threshold); the row count splits exactly over the
four classes.  The original three-class claim fails on sub-threshold rows
(see `aggregator_accounting_counterexample`). -/
theorem aggregator_accounting (cfg : Config) (chainKey : String) (rows : List Row) :
    ((processChain cfg chainKey rows).holders).Perm
        ((rows.filter fun r => classifyRow cfg r == RowClass.retail).map
          (mkRetailHolder cfg)) ∧
      (processChain cfg chainKey rows).excludedAddresses =
        ((rows.filter fun r => classifyRow cfg r == RowClass.excluded).map
            rowNormAddr).foldl insertSet [] ∧
      rows.length =
        (rows.countP fun r => classifyRow cfg r == RowClass.dropped) +
          (rows.countP fun r => classifyRow cfg r == RowClass.excluded) +
          (rows.countP fun r => classifyRow cfg r == RowClass.retail) +
          (rows.countP fun r => classifyRow cfg r == RowClass.subThreshold) := by
  refine ⟨?_, ?_, length_eq_class_counts cfg rows⟩
  · have h1 : (processChain cfg chainKey rows).holders =
        ((rows.foldl (processRow cfg)
            ⟨[], [], .finite 0, .finite 0⟩).holders).insertionSort
          (fun a b => b.balance ≤ a.balance) := rfl
    rw [h1, foldl_processRow_holders]
    simpa using
      List.perm_insertionSort (fun a b : Holder => b.balance ≤ a.balance) _
  · have h1 : (processChain cfg chainKey rows).excludedAddresses =
        (rows.foldl (processRow cfg) ⟨[], [], .finite 0, .finite 0⟩).excludedAddresses :=
      rfl
    rw [h1, foldl_processRow_excluded]

/-- C4 counterexample: a row with a valid address and finite balance 500
under retail threshold 1000 is not dropped, produces no holder and no
excluded address — it is sub-threshold, a fourth class the three-class
accounting misses. -/
theorem aggregator_accounting_counterexample :
    ¬ threeClassCoverage ⟨"Chain", [], 1000, 20000000000⟩ "eth"
        [⟨some "0xaa", some (JsNum.finite 500), none⟩] := by
  unfold threeClassCoverage
  decide

/-- C7: every holder produced by the per-chain aggregator has a balance
within `[retailThreshold, megaHolderThreshold]`. -/
theorem holders_within_thresholds (cfg : Config) (chainKey : String) (rows : List Row)
    (hth : cfg.retailThreshold ≤ cfg.megaHolderThreshold) :
    ∀ h ∈ (processChain cfg chainKey rows).holders,
      cfg.retailThreshold ≤ h.balance ∧ h.balance ≤ cfg.megaHolderThreshold := by
  intro h hmem
  have h1 : (processChain cfg chainKey rows).holders =
      ((rows.foldl (processRow cfg)
          ⟨[], [], .finite 0, .finite 0⟩).holders).insertionSort
        (fun a b => b.balance ≤ a.balance) := rfl
  rw [h1] at hmem
  have hperm := List.perm_insertionSort (fun a b : Holder => b.balance ≤ a.balance)
    ((rows.foldl (processRow cfg) ⟨[], [], .finite 0, .finite 0⟩).holders)
  rw [hperm.mem_iff, foldl_processRow_holders] at hmem
  simp only [List.nil_append, List.mem_map, List.mem_filter] at hmem
  obtain ⟨r, ⟨_, hcls⟩, hh⟩ := hmem
  have hcls2 : classifyRow cfg r = RowClass.retail := by
    simpa using hcls
  obtain ⟨q, hq, hlo, hhi⟩ := classifyRow_retail_bounds cfg r hcls2
  subst hh
  simpa [mkRetailHolder, hq, JsNum.toQ] using ⟨hlo, hhi⟩

theorem holders_within_thresholds_witness :
    (0 : ℚ) ≤ 20000000000 ∧
      ∀ h ∈ (processChain ⟨"Telcoin", [], 0, 20000000000⟩ "telcoin"
          [⟨some "0xaa", some (JsNum.finite 5), none⟩]).holders,
        (0 : ℚ) ≤ h.balance ∧ h.balance ≤ 20000000000 :=
  ⟨by norm_num, holders_within_thresholds _ _ _ (by norm_num)⟩

/-- C10: a row whose balance fields are all absent gets balance `Number(0)`,
is not dropped, adds `0` to `totalProcessed`, and under the Dune
configuration (retail threshold `0`, non-denylisted address, non-negative
mega threshold) becomes a holder with balance `0` counted in
`retailHolderCount`. -/
theorem absent_balance_coerced_to_zero (cfg : Config) (chainKey : String) (row : Row)
    (a : String) (st : ChainState)
    (h1 : row.telcoin_balance = none) (h2 : row.amount = none)
    (hn : normalizeAddress row.address = some a) :
    rowBalance row = JsNum.finite 0 ∧
      classifyRow cfg row ≠ RowClass.dropped ∧
      (processRow cfg st row).totalProcessed = st.totalProcessed.add (JsNum.finite 0) ∧
      (cfg.retailThreshold = 0 → cfg.exclusionSet.contains a = false →
        0 ≤ cfg.megaHolderThreshold →
        (processChain cfg chainKey [row]).holders = [⟨a, 0, cfg.label⟩] ∧
          (processChain cfg chainKey [row]).retailHolderCount = 1) := by
  have hb : rowBalance row = JsNum.finite 0 := by
    simp [rowBalance, h1, h2]
  refine ⟨hb, ?_, ?_, ?_⟩
  · simp only [classifyRow, hn, hb, JsNum.isNaN]
    split_ifs <;> simp_all
  · rcases hc : classifyRow cfg row with _ | _ | _ | _
    · exfalso
      simp [classifyRow, hn, hb, JsNum.isNaN] at hc
      split_ifs at hc
    all_goals rw [processRow_eq_class, hc] <;> simp [hb]
  · intro hr hc0 hm
    have hc0m : a ∉ cfg.exclusionSet := by simpa using hc0
    have hcls : classifyRow cfg row = RowClass.retail := by
      simp only [classifyRow, hn, hb, JsNum.isNaN, JsNum.gtQ, JsNum.geQ]
      have hgt : ¬ (cfg.megaHolderThreshold < (0 : ℚ)) := not_lt.mpr hm
      simp [hc0m, hgt, hr]
    have hh : (processChain cfg chainKey [row]).holders =
        (([row].foldl (processRow cfg)
            ⟨[], [], .finite 0, .finite 0⟩).holders).insertionSort
          (fun a b => b.balance ≤ a.balance) := rfl
    have hlist : (processChain cfg chainKey [row]).holders = [⟨a, 0, cfg.label⟩] := by
      rw [hh, foldl_processRow_holders]
      simp [List.filter_cons, hcls, mkRetailHolder, hn, hb, JsNum.toQ,
        List.insertionSort, List.orderedInsert]
    refine ⟨hlist, ?_⟩
    have hcount : (processChain cfg chainKey [row]).retailHolderCount =
        ((processChain cfg chainKey [row]).holders).length := rfl
    rw [hcount, hlist]
    rfl

theorem absent_balance_coerced_to_zero_witness :
    rowBalance ⟨some "0xaa", none, none⟩ = JsNum.finite 0 ∧
      classifyRow ⟨"Telcoin", [], 0, 20000000000⟩ ⟨some "0xaa", none, none⟩ ≠
        RowClass.dropped ∧
      (processRow ⟨"Telcoin", [], 0, 20000000000⟩ ⟨[], [], .finite 0, .finite 0⟩
          ⟨some "0xaa", none, none⟩).totalProcessed =
        (JsNum.finite 0).add (JsNum.finite 0) ∧
      ((0 : ℚ) = 0 → ([] : List String).contains "0xaa" = false →
        (0 : ℚ) ≤ 20000000000 →
        (processChain ⟨"Telcoin", [], 0, 20000000000⟩ "telcoin"
            [⟨some "0xaa", none, none⟩]).holders = [⟨"0xaa", 0, "Telcoin"⟩] ∧
          (processChain ⟨"Telcoin", [], 0, 20000000000⟩ "telcoin"
              [⟨some "0xaa", none, none⟩]).retailHolderCount = 1) :=
  absent_balance_coerced_to_zero _ _ _ _ _ (by decide) (by decide) (by decide)

theorem insertSet_nodup (s : List String) (a : String) (h : s.Nodup) :
    (insertSet s a).Nodup := by
  unfold insertSet
  split_ifs with hmem
  · exact h
  · simp [List.nodup_append, h, hmem]

theorem foldl_insertSet_nodup (l : List String) (acc : List String) (h : acc.Nodup) :
    (l.foldl insertSet acc).Nodup := by
  induction l generalizing acc with
  | nil => exact h
  | cons x l ih => exact ih _ (insertSet_nodup _ _ h)

theorem foldl_entries_insertSet_nodup (entries : List (String × ChainAggregate))
    (acc : List String) (h : acc.Nodup) :
    (entries.foldl (fun acc e => e.2.excludedAddresses.foldl insertSet acc) acc).Nodup := by
  induction entries generalizing acc with
  | nil => exact h
  | cons e entries ih => exact ih _ (foldl_insertSet_nodup _ _ h)

/-- C5 (amended): the combiner does NOT merge multi-chain holder records: its
holder list is (a descending re-sort of, hence a permutation of) the plain
concatenation of the per-chain holder lists, so an address holding on two
chains appears twice.  Deduplication applies only to `excludedAddresses`,
which is a set union and holds no duplicates.  The original claim is refuted
by `combiner_dedup_counterexample`. -/
theorem combiner_concat_not_dedup (entries : List (String × ChainAggregate)) :
    ((buildCombinedDataset entries).holders).Perm
        (entries.flatMap fun e => e.2.holders.map fun h => { h with chain := e.2.label }) ∧
      ((buildCombinedDataset entries).excludedAddresses).Nodup := by
  constructor
  · have h1 : (buildCombinedDataset entries).holders =
        (entries.flatMap fun e => e.2.holders.map fun h =>
          { h with chain := e.2.label }).insertionSort
          (fun a b => b.balance ≤ a.balance) := rfl
    rw [h1]
    exact List.perm_insertionSort _ _
  · have h1 : (buildCombinedDataset entries).excludedAddresses =
        entries.foldl (fun acc e => e.2.excludedAddresses.foldl insertSet acc) [] := rfl
    rw [h1]
    exact foldl_entries_insertSet_nodup entries [] (by simp)

/-- C5 counterexample: the address `0xaa` is a holder on two chains; the
combined holder list contains it twice, so the combined `holders` sequence is
not duplicate-free in normalized addresses — the combiner concatenates rather
than merges. -/
theorem combiner_dedup_counterexample :
    ((processChain ⟨"Ethereum", [], 0, 20000000000⟩ "eth"
          [⟨some "0xaa", some (JsNum.finite 5), none⟩]).holders).map (·.address) =
        ["0xaa"] ∧
      ((processChain ⟨"Polygon", [], 0, 20000000000⟩ "polygon"
          [⟨some "0xaa", some (JsNum.finite 5), none⟩]).holders).map (·.address) =
        ["0xaa"] ∧
      ((buildCombinedDataset
          [("eth", processChain ⟨"Ethereum", [], 0, 20000000000⟩ "eth"
              [⟨some "0xaa", some (JsNum.finite 5), none⟩]),
            ("polygon", processChain ⟨"Polygon", [], 0, 20000000000⟩ "polygon"
              [⟨some "0xaa", some (JsNum.finite 5), none⟩])]).holders).map (·.address) =
        ["0xaa", "0xaa"] ∧
      ¬ (((buildCombinedDataset
          [("eth", processChain ⟨"Ethereum", [], 0, 20000000000⟩ "eth"
              [⟨some "0xaa", some (JsNum.finite 5), none⟩]),
            ("polygon", processChain ⟨"Polygon", [], 0, 20000000000⟩ "polygon"
              [⟨some "0xaa", some (JsNum.finite 5), none⟩])]).holders).map
          (·.address)).Nodup := by
  decide

theorem sum_of_all_eq (l : List ℚ) (c : ℚ) (h : ∀ x ∈ l, x = c) :
    l.sum = l.length * c := by
  induction l with
  | nil => simp
  | cons x t ih =>
    have hx : x = c := h x (List.mem_cons_self _ _)
    have ht := ih fun y hy => h y (List.mem_cons_of_mem _ hy)
    simp only [List.sum_cons, List.length_cons, ht, hx]
    push_cast
    ring

theorem meanQ_of_all_eq (l : List ℚ) (c : ℚ) (hl : l ≠ []) (h : ∀ x ∈ l, x = c) :
    meanQ l = c := by
  unfold meanQ
  rw [sum_of_all_eq l c h]
  have hn : ((l.length : ℚ)) ≠ 0 := by
    simp [List.length_eq_zero, hl]
  field_simp

theorem varianceQ_nonneg (l : List ℚ) : 0 ≤ varianceQ l := by
  unfold varianceQ
  apply div_nonneg
  · apply List.sum_nonneg
    intro x hx
    simp only [List.mem_map] at hx
    obtain ⟨v, _, rfl⟩ := hx
    positivity
  · positivity

theorem varianceQ_eq_zero_iff (l : List ℚ) (hl : l ≠ []) :
    varianceQ l = 0 ↔ ∀ x ∈ l, x = meanQ l := by
  unfold varianceQ
  have hn : ((l.length : ℚ)) ≠ 0 := by
    simp [List.length_eq_zero, hl]
  rw [div_eq_zero_iff]
  constructor
  · rintro (hsum | hz)
    · intro x hx
      have hnn : ∀ y ∈ l.map fun v => (v - meanQ l) ^ 2, 0 ≤ y := by
        intro y hy
        simp only [List.mem_map] at hy
        obtain ⟨v, _, rfl⟩ := hy
        positivity
      have hx2 : (x - meanQ l) ^ 2 = 0 :=
        List.all_zero_of_le_zero_le_of_sum_eq_zero hnn hsum
          (List.mem_map_of_mem _ hx)
      have := pow_eq_zero_iff (n := 2) (by norm_num) |>.mp hx2
      linarith [this]
    · exact absurd hz hn
  · intro h
    left
    have hmap : l.map (fun v => (v - meanQ l) ^ 2) = l.map fun _ => (0 : ℚ) :=
      List.map_congr_left fun x hx => by rw [h x hx]; ring
    rw [hmap]
    simp

/-- C9: `calculateStdDeviation` returns `0` on the empty list, is the square
root of the population variance (squared-deviation sum divided by `n`, not
`n - 1`) otherwise, and vanishes exactly when all balances are equal (lists
with at most one element are covered: the all-equal condition is vacuous or
trivial there). -/
theorem stddev_spec :
    calculateStdDeviation [] = 0 ∧
      (∀ l : List ℚ, l ≠ [] → calculateStdDeviation l = Real.sqrt (varianceQ l)) ∧
      ∀ l : List ℚ, calculateStdDeviation l = 0 ↔ ∀ x ∈ l, ∀ y ∈ l, x = y := by
  refine ⟨by simp [calculateStdDeviation], fun l hl => by simp [calculateStdDeviation, hl], ?_⟩
  intro l
  rcases eq_or_ne l [] with rfl | hl
  · simp [calculateStdDeviation]
  · rw [show calculateStdDeviation l = Real.sqrt (varianceQ l) by
      simp [calculateStdDeviation, hl]]
    rw [show (0 : ℝ) = Real.sqrt 0 by simp]
    rw [Real.sqrt_inj (by exact_mod_cast varianceQ_nonneg l) le_rfl]
    rw [show ((varianceQ l : ℝ) = 0 ↔ varianceQ l = 0) by exact_mod_cast Iff.rfl]
    rw [varianceQ_eq_zero_iff l hl]
    constructor
    · intro h x hx y hy
      rw [h x hx, h y hy]
    · intro h
      obtain ⟨c, t, rfl⟩ := List.exists_cons_of_ne_nil hl
      have hc : ∀ x ∈ c :: t, x = c := fun x hx => h x hx c (List.mem_cons_self _ _)
      intro x hx
      rw [hc x hx, meanQ_of_all_eq _ c hl hc]

theorem stddev_spec_witness :
    (((3 : ℚ) :: [3]) ≠ []) ∧
      calculateStdDeviation ((3 : ℚ) :: [3]) = Real.sqrt (varianceQ ((3 : ℚ) :: [3])) :=
  ⟨by decide, stddev_spec.2.1 _ (by decide)⟩

theorem foldl_add_balance (hs : List Holder) (init : ℚ) :
    hs.foldl (fun s h => s + h.balance) init = init + (hs.map (·.balance)).sum := by
  induction hs generalizing init with
  | nil => simp
  | cons h t ih => simp [ih, add_assoc]

theorem sumBalances_eq_sum (hs : List Holder) :
    sumBalances hs = (hs.map (·.balance)).sum := by
  simpa using foldl_add_balance hs 0

theorem sumBalances_filter (p : Holder → Bool) (l : List Holder) :
    sumBalances (l.filter p) = (l.map fun h => if p h then h.balance else 0).sum := by
  rw [sumBalances_eq_sum]
  induction l with
  | nil => simp
  | cons h t ih =>
    by_cases hp : p h <;> simp [List.filter_cons, hp, ih]

theorem bracket_indicator (h : Holder) :
    (if inBracket ⟨1000, some 10000, "1K-10K"⟩ h then h.balance else 0) +
        ((if inBracket ⟨10000, some 100000, "10K-100K"⟩ h then h.balance else 0) +
          ((if inBracket ⟨100000, some 1000000, "100K-1M"⟩ h then h.balance else 0) +
            ((if inBracket ⟨1000000, some 10000000, "1M-10M"⟩ h then h.balance else 0) +
              ((if inBracket ⟨10000000, some 100000000, "10M-100M"⟩ h then h.balance
                  else 0) +
                (if inBracket ⟨100000000, none, "100M+"⟩ h then h.balance else 0))))) =
      if 1000 ≤ h.balance then h.balance else 0 := by
  simp only [inBracket, Bool.and_eq_true, decide_eq_true_eq, and_true]
  rcases lt_or_le h.balance 1000 with c1 | c1
  · have a1 : ¬ ((1000 : ℚ) ≤ h.balance) := by linarith
    have a2 : ¬ ((10000 : ℚ) ≤ h.balance) := by linarith
    have a3 : ¬ ((100000 : ℚ) ≤ h.balance) := by linarith
    have a4 : ¬ ((1000000 : ℚ) ≤ h.balance) := by linarith
    have a5 : ¬ ((10000000 : ℚ) ≤ h.balance) := by linarith
    have a6 : ¬ ((100000000 : ℚ) ≤ h.balance) := by linarith
    simp [a1, a2, a3, a4, a5, a6]
  rcases lt_or_le h.balance 10000 with c2 | c2
  · have a2 : ¬ ((10000 : ℚ) ≤ h.balance) := by linarith
    have a3 : ¬ ((100000 : ℚ) ≤ h.balance) := by linarith
    have a4 : ¬ ((1000000 : ℚ) ≤ h.balance) := by linarith
    have a5 : ¬ ((10000000 : ℚ) ≤ h.balance) := by linarith
    have a6 : ¬ ((100000000 : ℚ) ≤ h.balance) := by linarith
    simp [c1, c2, a2, a3, a4, a5, a6]
  rcases lt_or_le h.balance 100000 with c3 | c3
  · have b1 : ¬ (h.balance < 10000) := not_lt.mpr c2
    have a3 : ¬ ((100000 : ℚ) ≤ h.balance) := by linarith
    have a4 : ¬ ((1000000 : ℚ) ≤ h.balance) := by linarith
    have a5 : ¬ ((10000000 : ℚ) ≤ h.balance) := by linarith
    have a6 : ¬ ((100000000 : ℚ) ≤ h.balance) := by linarith
    simp [c1, c2, c3, b1, a3, a4, a5, a6]
  rcases lt_or_le h.balance 1000000 with c4 | c4
  · have b1 : ¬ (h.balance < 10000) := by linarith
    have b2 : ¬ (h.balance < 100000) := not_lt.mpr c3
    have a4 : ¬ ((1000000 : ℚ) ≤ h.balance) := by linarith
    have a5 : ¬ ((10000000 : ℚ) ≤ h.balance) := by linarith
    have a6 : ¬ ((100000000 : ℚ) ≤ h.balance) := by linarith
    simp [c1, c3, c4, b1, b2, a4, a5, a6]
  rcases lt_or_le h.balance 10000000 with c5 | c5
  · have b1 : ¬ (h.balance < 10000) := by linarith
    have b2 : ¬ (h.balance < 100000) := by linarith
    have b3 : ¬ (h.balance < 1000000) := not_lt.mpr c4
    have a5 : ¬ ((10000000 : ℚ) ≤ h.balance) := by linarith
    have a6 : ¬ ((100000000 : ℚ) ≤ h.balance) := by linarith
    simp [c1, c4, c5, b1, b2, b3, a5, a6]
  rcases lt_or_le h.balance 100000000 with c6 | c6
  · have b1 : ¬ (h.balance < 10000) := by linarith
    have b2 : ¬ (h.balance < 100000) := by linarith
    have b3 : ¬ (h.balance < 1000000) := by linarith
    have b4 : ¬ (h.balance < 10000000) := not_lt.mpr c5
    have a6 : ¬ ((100000000 : ℚ) ≤ h.balance) := by linarith
    simp [c1, c5, c6, b1, b2, b3, b4, a6]
  · have b1 : ¬ (h.balance < 10000) := by linarith
    have b2 : ¬ (h.balance < 100000) := by linarith
    have b3 : ¬ (h.balance < 1000000) := by linarith
    have b4 : ¬ (h.balance < 10000000) := by linarith
    have b5 : ¬ (h.balance < 100000000) := not_lt.mpr c6
    simp [c1, c6, b1, b2, b3, b4, b5]

theorem six_map_sum (l : List Holder) (f1 f2 f3 f4 f5 f6 g : Holder → ℚ)
    (hpt : ∀ h, f1 h + (f2 h + (f3 h + (f4 h + (f5 h + f6 h)))) = g h) :
    (l.map f1).sum + ((l.map f2).sum + ((l.map f3).sum + ((l.map f4).sum +
        ((l.map f5).sum + (l.map f6).sum)))) = (l.map g).sum := by
  induction l with
  | nil => simp
  | cons h t ih =>
    simp only [List.map_cons, List.sum_cons]
    have := hpt h
    linarith

theorem distributionTotal_eq (l : List Holder) :
    distributionTotal l = (l.map fun h => if 1000 ≤ h.balance then h.balance else 0).sum := by
  unfold distributionTotal calculateDistribution brackets
  simp only [List.map_cons, List.map_nil, List.sum_cons, List.sum_nil, add_zero]
  rw [sumBalances_filter, sumBalances_filter, sumBalances_filter, sumBalances_filter,
    sumBalances_filter, sumBalances_filter]
  exact six_map_sum l _ _ _ _ _ _ _ fun h => bracket_indicator h

theorem map_sum_pointwise (f g : Holder → ℚ) :
    ∀ l : List Holder, (∀ x ∈ l, f x ≤ g x) →
      (l.map f).sum ≤ (l.map g).sum ∧
        ((l.map f).sum = (l.map g).sum ↔ ∀ x ∈ l, f x = g x) := by
  intro l
  induction l with
  | nil => simp
  | cons h t ih =>
    intro hle
    obtain ⟨ih1, ih2⟩ := ih fun x hx => hle x (List.mem_cons_of_mem _ hx)
    have hh := hle h (List.mem_cons_self _ _)
    constructor
    · simp only [List.map_cons, List.sum_cons]
      linarith
    · simp only [List.map_cons, List.sum_cons, List.mem_cons]
      constructor
      · intro heq
        have h1 : f h = g h := by
          by_contra hne
          have hlt : f h < g h := lt_of_le_of_ne hh hne
          linarith
        have h2 : (t.map f).sum = (t.map g).sum := by linarith
        intro x hx
        rcases hx with rfl | hx
        · exact h1
        · exact ih2.mp h2 x hx
      · intro hall
        rw [hall h (Or.inl rfl), ih2.mpr fun x hx => hall x (Or.inr hx)]

theorem inBracket_false_of_lt (b : DistBracket) (h : Holder) (hmin : 1000 ≤ b.min)
    (hlt : h.balance < 1000) : inBracket b h = false := by
  unfold inBracket
  have hn : ¬ (b.min ≤ h.balance) := by linarith
  simp [hn]

/-- C8 (amended): for holders with non-negative balances the histogram bucket
totals sum to at most the total supply; equality holds exactly when every
holder either reaches the lowest bracket floor (balance at least 1000) or
holds exactly 0 — a 0-balance holder is skipped by every bracket yet adds
nothing to the supply, so the original "equality exactly when all balances
are at least 1000" fails (see `distribution_equality_counterexample`).
Sufficiency of "all at least 1000" still holds, and a holder below 1000 falls
into no bracket while the holder list (hence `retailHolderCount` and
`totalRetailSupply`, which are its length and balance sum) still includes
it. -/
theorem distribution_conservation (holders : List Holder)
    (hnn : ∀ h ∈ holders, 0 ≤ h.balance) :
    distributionTotal holders ≤ sumBalances holders ∧
      (distributionTotal holders = sumBalances holders ↔
        ∀ h ∈ holders, 1000 ≤ h.balance ∨ h.balance = 0) ∧
      ((∀ h ∈ holders, 1000 ≤ h.balance) →
        distributionTotal holders = sumBalances holders) ∧
      ∀ h ∈ holders, h.balance < 1000 → ∀ b ∈ brackets, inBracket b h = false := by
  have hle : ∀ h ∈ holders, (if 1000 ≤ h.balance then h.balance else 0) ≤ h.balance := by
    intro h hh
    split_ifs
    · exact le_refl _
    · exact hnn h hh
  obtain ⟨h1, h2⟩ :=
    map_sum_pointwise (fun h => if 1000 ≤ h.balance then h.balance else 0)
      (fun h => h.balance) holders hle
  refine ⟨?_, ?_, ?_, ?_⟩
  · rw [distributionTotal_eq, sumBalances_eq_sum]
    exact h1
  · rw [distributionTotal_eq, sumBalances_eq_sum, h2]
    constructor
    · intro hall h hh
      have hx := hall h hh
      split_ifs at hx with hc
      · exact Or.inl hc
      · exact Or.inr hx.symm
    · intro hall h hh
      rcases hall h hh with hc | hc
      · rw [if_pos hc]
      · rw [hc]
        simp
  · intro hall
    rw [distributionTotal_eq, sumBalances_eq_sum]
    apply h2.mpr
    intro h hh
    rw [if_pos (hall h hh)]
  · intro h _ hlt b hb
    have hmin : 1000 ≤ b.min := by
      unfold brackets at hb
      simp only [List.mem_cons, List.not_mem_nil, or_false] at hb
      rcases hb with rfl | rfl | rfl | rfl | rfl | rfl <;> norm_num
    exact inBracket_false_of_lt b h hmin hlt

theorem distribution_conservation_witness :
    (∀ h ∈ [(⟨"0xaa", (500 : ℚ), "Telcoin"⟩ : Holder)], 0 ≤ h.balance) ∧
      distributionTotal [(⟨"0xaa", (500 : ℚ), "Telcoin"⟩ : Holder)] ≤
        sumBalances [(⟨"0xaa", (500 : ℚ), "Telcoin"⟩ : Holder)] :=
  ⟨by decide, (distribution_conservation _ (by decide)).1⟩

/-- C8 counterexample: a single holder with balance `0` reaches no bracket,
yet the bucket totals (all `0`) equal `totalRetailSupply` (also `0`), so
equality does not force every balance to be at least 1000. -/
theorem distribution_equality_counterexample :
    distributionTotal [(⟨"0xaa", (0 : ℚ), "Telcoin"⟩ : Holder)] =
        sumBalances [(⟨"0xaa", (0 : ℚ), "Telcoin"⟩ : Holder)] ∧
      ¬ ∀ h ∈ [(⟨"0xaa", (0 : ℚ), "Telcoin"⟩ : Holder)], 1000 ≤ h.balance := by
  constructor
  · rw [distributionTotal_eq, sumBalances_eq_sum]
    norm_num
  · intro hall
    have := hall _ (List.mem_cons_self _ _)
    norm_num at this

theorem take_min_length (l : List Holder) (n : ℕ) :
    l.take n = l.take (min n l.length) := by
  rcases le_total n l.length with h | h
  · rw [min_eq_left h]
  · rw [min_eq_right h, List.take_of_length_le h, List.take_length]

theorem sumTake_mono (l : List Holder) (hnn : ∀ h ∈ l, 0 ≤ h.balance)
    (a b : ℕ) (hab : a ≤ b) :
    sumBalances (l.take a) ≤ sumBalances (l.take b) := by
  rw [sumBalances_eq_sum, sumBalances_eq_sum]
  obtain ⟨c, rfl⟩ := Nat.exists_eq_add_of_le hab
  rw [List.take_add, List.map_append, List.sum_append]
  have h0 : 0 ≤ (((l.drop a).take c).map (·.balance)).sum := by
    apply List.sum_nonneg
    intro x hx
    simp only [List.mem_map] at hx
    obtain ⟨h, hh, rfl⟩ := hx
    exact hnn h (List.drop_subset _ _ (List.take_subset _ _ hh))
  linarith

/-- C6: for a descending-sorted holder list with non-negative balances (the
shape the data model guarantees for holder lists) and any total supply, each
top-N entry of `computeMetrics` has `count = min N (number of holders)`,
`balance` equal to the sum of the first `min N (number of holders)` balances,
and `percentage` equal to `balance / totalSupply * 100` rendered to two
decimals, or the literal string `"0.00"` when the supply is not positive;
moreover the top-N balances are non-decreasing in N across 10, 25, 50, 100. -/
theorem topn_spec (holders : List Holder) (supply : ℚ)
    (hsorted : List.Sorted (fun a b : Holder => b.balance ≤ a.balance) holders)
    (hnn : ∀ h ∈ holders, 0 ≤ h.balance) :
    ((computeMetrics holders supply).top10 = topEntry holders supply 10 ∧
        (computeMetrics holders supply).top25 = topEntry holders supply 25 ∧
        (computeMetrics holders supply).top50 = topEntry holders supply 50 ∧
        (computeMetrics holders supply).top100 = topEntry holders supply 100) ∧
      (∀ n : ℕ,
        (topEntry holders supply n).count = min n holders.length ∧
          (topEntry holders supply n).balance =
            ((holders.take (min n holders.length)).map (·.balance)).sum ∧
          (0 < supply → (topEntry holders supply n).percentage =
            toFixed2 ((topEntry holders supply n).balance / supply * 100)) ∧
          (supply ≤ 0 → (topEntry holders supply n).percentage = "0.00")) ∧
      ((topEntry holders supply 10).balance ≤ (topEntry holders supply 25).balance ∧
        (topEntry holders supply 25).balance ≤ (topEntry holders supply 50).balance ∧
        (topEntry holders supply 50).balance ≤ (topEntry holders supply 100).balance) := by
  refine ⟨⟨rfl, rfl, rfl, rfl⟩, ?_, ?_, ?_, ?_⟩
  · intro n
    refine ⟨rfl, ?_, ?_, ?_⟩
    · show sumBalances (holders.take n) = _
      rw [take_min_length, sumBalances_eq_sum]
    · intro hs
      show (if 0 < supply then _ else _) = _
      rw [if_pos hs]
      exact rfl
    · intro hs
      show (if 0 < supply then _ else _) = _
      rw [if_neg (not_lt.mpr hs)]
  · exact sumTake_mono holders hnn 10 25 (by norm_num)
  · exact sumTake_mono holders hnn 25 50 (by norm_num)
  · exact sumTake_mono holders hnn 50 100 (by norm_num)

theorem topn_spec_witness :
    List.Sorted (fun a b : Holder => b.balance ≤ a.balance)
        [⟨"0xa", (100 : ℚ), "C"⟩, ⟨"0xb", (50 : ℚ), "C"⟩] ∧
      (∀ h ∈ [(⟨"0xa", (100 : ℚ), "C"⟩ : Holder), ⟨"0xb", (50 : ℚ), "C"⟩],
        0 ≤ h.balance) ∧
      ((topEntry [⟨"0xa", (100 : ℚ), "C"⟩, ⟨"0xb", (50 : ℚ), "C"⟩] 150 10).balance ≤
          (topEntry [⟨"0xa", (100 : ℚ), "C"⟩, ⟨"0xb", (50 : ℚ), "C"⟩] 150 25).balance ∧
        (topEntry [⟨"0xa", (100 : ℚ), "C"⟩, ⟨"0xb", (50 : ℚ), "C"⟩] 150 25).balance ≤
          (topEntry [⟨"0xa", (100 : ℚ), "C"⟩, ⟨"0xb", (50 : ℚ), "C"⟩] 150 50).balance ∧
        (topEntry [⟨"0xa", (100 : ℚ), "C"⟩, ⟨"0xb", (50 : ℚ), "C"⟩] 150 50).balance ≤
          (topEntry [⟨"0xa", (100 : ℚ), "C"⟩, ⟨"0xb", (50 : ℚ), "C"⟩] 150 100).balance) :=
  ⟨by decide, by decide,
    (topn_spec [⟨"0xa", (100 : ℚ), "C"⟩, ⟨"0xb", (50 : ℚ), "C"⟩] 150 (by decide)
        (by decide)).2.2⟩

theorem sum_le_giniCumul (l : List ℚ) (h : ∀ x ∈ l, 0 ≤ x) : l.sum ≤ giniCumul l := by
  induction l with
  | nil => simp [giniCumul]
  | cons a t ih =>
    have ha : 0 ≤ a := h a (List.mem_cons_self _ _)
    have ht := ih fun x hx => h x (List.mem_cons_of_mem _ hx)
    have hm : (0 : ℚ) ≤ (t.length : ℚ) := by positivity
    simp only [giniCumul, List.sum_cons]
    nlinarith

theorem length_mul_le_sum (t : List ℚ) (a : ℚ) (h : ∀ x ∈ t, a ≤ x) :
    (t.length : ℚ) * a ≤ t.sum := by
  induction t with
  | nil => simp
  | cons b t ih =>
    have hb := h b (List.mem_cons_self _ _)
    have ht := ih fun x hx => h x (List.mem_cons_of_mem _ hx)
    simp only [List.length_cons, List.sum_cons]
    push_cast
    nlinarith

theorem two_giniCumul_le (l : List ℚ) (h : List.Sorted (· ≤ ·) l) :
    2 * giniCumul l ≤ ((l.length : ℚ) + 1) * l.sum := by
  induction l with
  | nil => simp [giniCumul]
  | cons a t ih =>
    rw [List.sorted_cons] at h
    obtain ⟨hall, hsort⟩ := h
    have ih2 := ih hsort
    have hlen := length_mul_le_sum t a hall
    simp only [giniCumul, List.length_cons, List.sum_cons]
    push_cast
    nlinarith

theorem giniCumul_of_all_eq (l : List ℚ) (c : ℚ) (h : ∀ x ∈ l, x = c) :
    2 * giniCumul l = c * l.length * (l.length + 1) := by
  induction l with
  | nil => simp [giniCumul]
  | cons a t ih =>
    have ha : a = c := h a (List.mem_cons_self _ _)
    have ht := ih fun x hx => h x (List.mem_cons_of_mem _ hx)
    subst ha
    simp only [giniCumul, List.length_cons]
    push_cast
    nlinarith [ht]

theorem giniCumul_eq_sum_range (l : List ℚ) :
    giniCumul l = ∑ i ∈ Finset.range l.length, ((l.length : ℚ) - i) * l.getD i 0 := by
  induction l with
  | nil => simp [giniCumul]
  | cons a t ih =>
    simp only [giniCumul, List.length_cons]
    rw [Finset.sum_range_succ']
    have h0 : (a :: t).getD 0 0 = a := rfl
    have hstep : ∀ i ∈ Finset.range t.length,
        (((t.length : ℚ) + 1) - ((i : ℚ) + 1)) * (a :: t).getD (i + 1) 0 =
          ((t.length : ℚ) - i) * t.getD i 0 := by
      intro i _
      have hg : (a :: t).getD (i + 1) 0 = t.getD i 0 := rfl
      rw [hg]
      ring_nf
    calc ((t.length : ℚ) + 1) * a + giniCumul t
        = giniCumul t + ((t.length : ℚ) + 1) * a := by ring
      _ = (∑ i ∈ Finset.range t.length, ((t.length : ℚ) - i) * t.getD i 0) +
            ((t.length : ℚ) + 1) * a := by rw [ih]
      _ = (∑ i ∈ Finset.range t.length,
            (((t.length : ℚ) + 1) - ((i : ℚ) + 1)) * (a :: t).getD (i + 1) 0) +
            ((t.length : ℚ) + 1) * a := by rw [Finset.sum_congr rfl hstep]
      _ = (∑ i ∈ Finset.range t.length,
            (((t.length + 1 : ℕ) : ℚ) - ((i + 1 : ℕ) : ℚ)) * (a :: t).getD (i + 1) 0) +
            (((t.length + 1 : ℕ) : ℚ) - ((0 : ℕ) : ℚ)) * (a :: t).getD 0 0 := by
          rw [h0]
          push_cast
          ring_nf
      _ = _ := rfl

theorem gini_unfold (l : List ℚ) (hl : l ≠ []) :
    calculateGiniCoefficient l =
      if (l.insertionSort (· ≤ ·)).sum = 0 then 0
      else (((l.insertionSort (· ≤ ·)).length : ℚ) + 1 -
          2 * giniCumul (l.insertionSort (· ≤ ·)) / (l.insertionSort (· ≤ ·)).sum) /
        ((l.insertionSort (· ≤ ·)).length : ℚ) := by
  unfold calculateGiniCoefficient
  rw [if_neg hl]

/-- C1: `calculateGiniCoefficient` returns `0` on the empty list, on a zero
total sum, and on all-equal value lists; for a non-empty list with non-zero
sum it equals `(n + 1 - 2 * (Σ over ascending-sorted v of (n - i + 1) * v_i)
/ Σ v) / n` (written 0-indexed below); and on every non-empty list of
non-negative balances the result lies in `[0, 1)`. -/
theorem gini_spec :
    calculateGiniCoefficient [] = 0 ∧
      (∀ l : List ℚ, l ≠ [] → l.sum = 0 → calculateGiniCoefficient l = 0) ∧
      (∀ (l : List ℚ) (c : ℚ), (∀ x ∈ l, x = c) → calculateGiniCoefficient l = 0) ∧
      (∀ l : List ℚ, l ≠ [] → l.sum ≠ 0 →
        calculateGiniCoefficient l =
          ((l.length : ℚ) + 1 -
              2 * (∑ i ∈ Finset.range l.length,
                ((l.length : ℚ) - i) * (l.insertionSort (· ≤ ·)).getD i 0) / l.sum) /
            (l.length : ℚ)) ∧
      ∀ l : List ℚ, l ≠ [] → (∀ x ∈ l, 0 ≤ x) →
        0 ≤ calculateGiniCoefficient l ∧ calculateGiniCoefficient l < 1 := by
  refine ⟨by simp [calculateGiniCoefficient], ?_, ?_, ?_, ?_⟩
  · intro l hl hs
    have hsum2 : (l.insertionSort (· ≤ ·)).sum = l.sum :=
      (List.perm_insertionSort (· ≤ · : ℚ → ℚ → Prop) l).sum_eq
    rw [gini_unfold l hl, if_pos (by rw [hsum2, hs])]
  · intro l c hall
    rcases eq_or_ne l [] with rfl | hl
    · simp [calculateGiniCoefficient]
    · rw [gini_unfold l hl]
      by_cases hz : (l.insertionSort (· ≤ ·)).sum = 0
      · rw [if_pos hz]
      · rw [if_neg hz]
        have hperm := List.perm_insertionSort (· ≤ · : ℚ → ℚ → Prop) l
        have hcall : ∀ x ∈ l.insertionSort (· ≤ ·), x = c := fun x hx =>
          hall x (hperm.subset hx)
        have h2C := giniCumul_of_all_eq (l.insertionSort (· ≤ ·)) c hcall
        have hS := sum_of_all_eq (l.insertionSort (· ≤ ·)) c hcall
        have hn : ((l.length : ℚ)) ≠ 0 := by
          simp [List.length_eq_zero, hl]
        have hc : c ≠ 0 := by
          intro h0
          exact hz (by rw [hS, h0, mul_zero])
        have hquot : 2 * giniCumul (l.insertionSort (· ≤ ·)) /
            (l.insertionSort (· ≤ ·)).sum =
            (((l.insertionSort (· ≤ ·)).length : ℚ)) + 1 := by
          rw [h2C, hS, List.length_insertionSort]
          field_simp
          ring
        rw [hquot]
        simp
  · intro l hl hsum
    have hperm := List.perm_insertionSort (· ≤ · : ℚ → ℚ → Prop) l
    have hsum2 : (l.insertionSort (· ≤ ·)).sum = l.sum := hperm.sum_eq
    have hlen : (l.insertionSort (· ≤ ·)).length = l.length := hperm.length_eq
    rw [gini_unfold l hl, if_neg (by rw [hsum2]; exact hsum)]
    rw [hsum2, giniCumul_eq_sum_range, hlen]
  · intro l hl hnn
    have hperm := List.perm_insertionSort (· ≤ · : ℚ → ℚ → Prop) l
    by_cases hz : (l.insertionSort (· ≤ ·)).sum = 0
    · rw [gini_unfold l hl, if_pos hz]
      norm_num
    · rw [gini_unfold l hl, if_neg hz]
      have hsorted : List.Sorted (· ≤ ·) (l.insertionSort (· ≤ ·)) :=
        List.sorted_insertionSort _ l
      have hnns : ∀ x ∈ l.insertionSort (· ≤ ·), 0 ≤ x := fun x hx =>
        hnn x (hperm.subset hx)
      have hSpos : 0 < (l.insertionSort (· ≤ ·)).sum :=
        lt_of_le_of_ne (List.sum_nonneg hnns) (Ne.symm hz)
      have hne : l.insertionSort (· ≤ ·) ≠ [] := by
        intro h0
        rw [h0] at hz
        exact hz rfl
      have hnpos : 0 < (((l.insertionSort (· ≤ ·)).length : ℚ)) := by
        exact_mod_cast List.length_pos.mpr hne
      have hub := two_giniCumul_le (l.insertionSort (· ≤ ·)) hsorted
      have hlb := sum_le_giniCumul (l.insertionSort (· ≤ ·)) hnns
      constructor
      · apply div_nonneg _ (le_of_lt hnpos)
        have hq : 2 * giniCumul (l.insertionSort (· ≤ ·)) /
            (l.insertionSort (· ≤ ·)).sum ≤
            (((l.insertionSort (· ≤ ·)).length : ℚ)) + 1 := by
          rw [div_le_iff hSpos]
          linarith
        linarith
      · rw [div_lt_one hnpos]
        have hq : 1 < 2 * giniCumul (l.insertionSort (· ≤ ·)) /
            (l.insertionSort (· ≤ ·)).sum := by
          rw [lt_div_iff hSpos]
          linarith
        linarith

theorem gini_spec_witness :
    (((1 : ℚ) :: [3]) ≠ [] ∧ ∀ x ∈ ((1 : ℚ) :: [3]), 0 ≤ x) ∧
      0 ≤ calculateGiniCoefficient ((1 : ℚ) :: [3]) ∧
        calculateGiniCoefficient ((1 : ℚ) :: [3]) < 1 :=
  ⟨⟨by decide, by decide⟩, gini_spec.2.2.2.2 _ (by decide) (by decide)⟩
